import Mathlib

/-!
Verification development for the product-authenticity core of the
trueproduct-tracker repository.

The embedding models:
* `src/lib/hash.ts` — `generateProductHash` (SHA-256 over the five
  pipe-joined canonical attributes, lowercase hex), `verifyProductHash`,
  `isProductExpired`, `encodeQRPayload` / `decodeQRPayload`
  (JSON + base64, i.e. `btoa` / `atob`);
* the `verifyProduct` / `recordScan` functions of the scan page
  (`src/unnamed/part_006`, lines 357–456);
* the `handleSubmit` product create/update of
  `src/pages/admin/ProductManagement.tsx`.

Platform primitives are given executable models:
* `crypto.subtle.digest("SHA-256", _)` is implemented in full
  (`Sha256.digest`), over `Nat` with explicit `% 2^32` reductions;
* `TextEncoder.encode` is UTF-8 (`utf8Bytes`);
* `btoa` / `atob` follow the WHATWG forgiving-base64 algorithm on
  whitespace-free inputs; `btoa` returns `none` where the real `btoa`
  throws `InvalidCharacterError` (a code unit above 255);
* `JSON.stringify` is modelled at its single call site (a two-field
  object of strings, insertion order `hash`, `product_no`, escaping
  `"` and `\`); `JSON.parse` is modelled on the flat-JSON subset
  (strings with `\"`, `\\` and standard short escapes, integers,
  `true` / `false` / `null`, one-level objects) — every value this
  codec produces, and every input the theorems examine, lies in the
  subset; `none` models a thrown `SyntaxError`;
* `new Date(s) < new Date()` is modelled at day granularity: ISO
  `YYYY-MM-DD` strings parse to calendar triples compared
  lexicographically, which is order-isomorphic to epoch-millisecond
  comparison for valid dates; an unparsable date yields `false`, as
  NaN comparisons do in JS.
-/

set_option maxHeartbeats 1000000

namespace Sha256

/-- Arithmetic is over `Nat`, reduced mod `2^32` wherever the JS
`Uint32` semantics of SHA-256 overflows. -/
def M32 : Nat := 4294967296

def rotr (n x : Nat) : Nat := ((x >>> n) ||| (x <<< (32 - n))) % M32

def bnot32 (x : Nat) : Nat := x ^^^ (M32 - 1)

def chF (x y z : Nat) : Nat := (x &&& y) ^^^ (bnot32 x &&& z)

def majF (x y z : Nat) : Nat := (x &&& y) ^^^ (x &&& z) ^^^ (y &&& z)

def bigS0 (x : Nat) : Nat := rotr 2 x ^^^ rotr 13 x ^^^ rotr 22 x

def bigS1 (x : Nat) : Nat := rotr 6 x ^^^ rotr 11 x ^^^ rotr 25 x

def smallS0 (x : Nat) : Nat := rotr 7 x ^^^ rotr 18 x ^^^ (x >>> 3)

def smallS1 (x : Nat) : Nat := rotr 17 x ^^^ rotr 19 x ^^^ (x >>> 10)

/-- Round constants: the first 32 bits of the fractional parts of the
cube roots of the first 64 primes. -/
def K : List Nat :=
  [1116352408, 1899447441, 3049323471, 3921009573,
   961987163, 1508970993, 2453635748, 2870763221,
   3624381080, 310598401, 607225278, 1426881987,
   1925078388, 2162078206, 2614888103, 3248222580,
   3835390401, 4022224774, 264347078, 604807628,
   770255983, 1249150122, 1555081692, 1996064986,
   2554220882, 2821834349, 2952996808, 3210313671,
   3336571891, 3584528711, 113926993, 338241895,
   666307205, 773529912, 1294757372, 1396182291,
   1695183700, 1986661051, 2177026350, 2456956037,
   2730485921, 2820302411, 3259730800, 3345764771,
   3516065817, 3600352804, 4094571909, 275423344,
   430227734, 506948616, 659060556, 883997877,
   958139571, 1322822218, 1537002063, 1747873779,
   1955562222, 2024104815, 2227730452, 2361852424,
   2428436474, 2756734187, 3204031479, 3329325298]

/-- Working registers of the compression function. -/
structure Regs where
  a : Nat
  b : Nat
  c : Nat
  d : Nat
  e : Nat
  f : Nat
  g : Nat
  h : Nat
  deriving DecidableEq

def initRegs : Regs :=
  ⟨1779033703, 3144134277, 1013904242, 2773480762,
   1359893119, 2600822924, 528734635, 1541459225⟩

/-- Big-endian 32-bit words from a byte list (a 64-byte block yields 16). -/
def bytesToWords : List Nat → List Nat
  | b0 :: b1 :: b2 :: b3 :: rest =>
      ((b0 <<< 24) ||| (b1 <<< 16) ||| (b2 <<< 8) ||| b3) :: bytesToWords rest
  | _ => []

/-- One message-schedule extension step; `w` has length `i` on entry. -/
def scheduleStep (w : List Nat) (i : Nat) : List Nat :=
  w ++ [(smallS1 (w.getD (i - 2) 0) + w.getD (i - 7) 0
          + smallS0 (w.getD (i - 15) 0) + w.getD (i - 16) 0) % M32]

/-- Extend the 16 block words to the 64-entry message schedule. -/
def schedule (ws : List Nat) : List Nat :=
  (List.range 48).foldl (fun w j => scheduleStep w (j + 16)) ws

/-- One compression round, fed a (round constant, schedule word) pair. -/
def roundStep (r : Regs) (kw : Nat × Nat) : Regs :=
  let t1 := (r.h + bigS1 r.e + chF r.e r.f r.g + kw.1 + kw.2) % M32
  let t2 := (bigS0 r.a + majF r.a r.b r.c) % M32
  ⟨(t1 + t2) % M32, r.a, r.b, r.c, (r.d + t1) % M32, r.e, r.f, r.g⟩

/-- Process one 64-byte block: 64 rounds, then add into the chaining state. -/
def processBlock (hs : Regs) (block : List Nat) : Regs :=
  let ws := schedule (bytesToWords block)
  let r := (K.zip ws).foldl roundStep hs
  ⟨(hs.a + r.a) % M32, (hs.b + r.b) % M32, (hs.c + r.c) % M32, (hs.d + r.d) % M32,
   (hs.e + r.e) % M32, (hs.f + r.f) % M32, (hs.g + r.g) % M32, (hs.h + r.h) % M32⟩

/-- Big-endian 8-byte encoding of the bit length. -/
def lenBytes8 (n : Nat) : List Nat :=
  [(n >>> 56) % 256, (n >>> 48) % 256, (n >>> 40) % 256, (n >>> 32) % 256,
   (n >>> 24) % 256, (n >>> 16) % 256, (n >>> 8) % 256, n % 256]

/-- Merkle–Damgård padding: `0x80`, zeros to 56 mod 64, 64-bit bit length. -/
def pad (msg : List Nat) : List Nat :=
  msg ++ 128 :: (List.replicate ((119 - msg.length % 64) % 64) 0 ++ lenBytes8 (msg.length * 8))

/-- Split a byte list into 64-byte blocks; the first argument is fuel,
structurally decreasing so the kernel can evaluate it. Each step consumes
at least one byte, so fuel equal to the list length always suffices. -/
def toBlocksF : Nat → List Nat → List (List Nat)
  | 0, _ => []
  | fuel + 1, l => if l = [] then [] else l.take 64 :: toBlocksF fuel (l.drop 64)

/-- Split the padded message into 64-byte blocks. -/
def toBlocks (l : List Nat) : List (List Nat) := toBlocksF l.length l

/-- Big-endian bytes of one 32-bit word. -/
def wordBytes (w : Nat) : List Nat :=
  [(w >>> 24) % 256, (w >>> 16) % 256, (w >>> 8) % 256, w % 256]

def regsToBytes (r : Regs) : List Nat :=
  wordBytes r.a ++ wordBytes r.b ++ wordBytes r.c ++ wordBytes r.d
    ++ wordBytes r.e ++ wordBytes r.f ++ wordBytes r.g ++ wordBytes r.h

/-- SHA-256 digest of a byte string: 32 bytes. -/
def digest (msg : List Nat) : List Nat :=
  regsToBytes ((toBlocks (pad msg)).foldl processBlock initRegs)

end Sha256

/-- Lowercase hexadecimal digit, as produced by JS `Number.toString(16)`. -/
def hexDigit (n : Nat) : Char :=
  if n < 10 then Char.ofNat (48 + n) else Char.ofNat (87 + n)

/-- Per-byte `b.toString(16).padStart(2, "0")`, mapped over the digest and
joined — each byte below 256 yields exactly its two lowercase hex digits. -/
def hexOfBytes : List Nat → List Char
  | [] => []
  | b :: bs => hexDigit (b / 16) :: hexDigit (b % 16) :: hexOfBytes bs

/-- UTF-8 bytes of one scalar value, as `TextEncoder.encode` produces. -/
def utf8Char (c : Char) : List Nat :=
  let n := c.toNat
  if n < 128 then [n]
  else if n < 2048 then [192 + n / 64, 128 + n % 64]
  else if n < 65536 then [224 + n / 4096, 128 + (n / 64) % 64, 128 + n % 64]
  else [240 + n / 262144, 128 + (n / 4096) % 64, 128 + (n / 64) % 64, 128 + n % 64]

def utf8Bytes : List Char → List Nat
  | [] => []
  | c :: cs => utf8Char c ++ utf8Bytes cs

/-- SHA-256 of the UTF-8 bytes of a string, lowercase hex encoded. -/
def sha256Hex (s : String) : String :=
  String.mk (hexOfBytes (Sha256.digest (utf8Bytes s.data)))

/-- Five canonical product attributes, in their stored textual form
(the argument record of `generateProductHash` in `src/lib/hash.ts`). -/
structure ProductAttrs where
  product_no : String
  product_name : String
  brand : String
  manufacture_date : String
  expiry_date : String
  deriving DecidableEq

/-- Pipe-joined attribute string built by `generateProductHash`. -/
def dataString (p : ProductAttrs) : String :=
  p.product_no ++ "|" ++ p.product_name ++ "|" ++ p.brand ++ "|"
    ++ p.manufacture_date ++ "|" ++ p.expiry_date

/-- Model of `generateProductHash` (src/lib/hash.ts, lines 2–16). -/
def generateProductHash (p : ProductAttrs) : String :=
  sha256Hex (dataString p)

/-- Model of `verifyProductHash` (src/lib/hash.ts, lines 18–30). -/
def verifyProductHash (storedHash : String) (p : ProductAttrs) : Bool :=
  storedHash == generateProductHash p

/-- Known-answer check of the SHA-256 model on the standard test vector. -/
theorem sha256_abc :
    sha256Hex "abc" = "ba7816bf8f01cfea414140de5dae2223b00361a396177a9cb410ff61f20015ad" := by
  decide

/-- Calendar date; `new Date("YYYY-MM-DD")` is modelled as this triple. -/
structure SimpleDate where
  year : Nat
  month : Nat
  day : Nat
  deriving DecidableEq

/-- Strict lexicographic date order, matching `<` on JS `Date` values at
day granularity. -/
def dateLt (a b : SimpleDate) : Bool :=
  Nat.blt a.year b.year
    || (a.year == b.year
        && (Nat.blt a.month b.month || (a.month == b.month && Nat.blt a.day b.day)))

/-- Decimal digit test on the character code (kernel-reducible). -/
def isDigitC (c : Char) : Bool :=
  decide (48 ≤ c.toNat ∧ c.toNat ≤ 57)

/-- Split a character list at `-` separators. -/
def splitDash : List Char → List (List Char)
  | [] => [[]]
  | c :: rest =>
      if c = '-' then [] :: splitDash rest
      else
        match splitDash rest with
        | [] => [[c]]
        | grp :: t => (c :: grp) :: t

def digitsToNat (l : List Char) : Nat :=
  l.foldl (fun acc c => acc * 10 + (c.toNat - 48)) 0

/-- Numeric value of a nonempty all-digit character group, else `none`
(the semantics of `Number` conversion piecewise inside `Date` parsing). -/
def digitsOnlyNat (cs : List Char) : Option Nat :=
  if cs ≠ [] ∧ cs.all isDigitC then some (digitsToNat cs) else none

/-- Parse an ISO `YYYY-MM-DD` string; anything else is an invalid date. -/
def parseISODate (s : String) : Option SimpleDate :=
  match (splitDash s.data).map digitsOnlyNat with
  | [some y, some m, some d] => some ⟨y, m, d⟩
  | _ => none

/-- Model of `isProductExpired` (src/lib/hash.ts, lines 32–34):
`new Date(expiryDate) < new Date()`, with `now` made explicit. An
unparsable expiry compares as NaN in JS, which is never `<`. -/
def isProductExpired (now : SimpleDate) (expiryDate : String) : Bool :=
  match parseISODate expiryDate with
  | some d => dateLt d now
  | none => false

/-- Base64 alphabet character for a sextet. -/
def b64Char (n : Nat) : Char :=
  if n < 26 then Char.ofNat (65 + n)
  else if n < 52 then Char.ofNat (97 + (n - 26))
  else if n < 62 then Char.ofNat (48 + (n - 52))
  else if n = 62 then Char.ofNat 43
  else Char.ofNat 47

/-- Inverse base64 alphabet lookup; `none` on a non-alphabet character. -/
def b64Index (c : Char) : Option Nat :=
  let n := c.toNat
  if 65 ≤ n ∧ n ≤ 90 then some (n - 65)
  else if 97 ≤ n ∧ n ≤ 122 then some (n - 97 + 26)
  else if 48 ≤ n ∧ n ≤ 57 then some (n - 48 + 52)
  else if n = 43 then some 62
  else if n = 47 then some 63
  else none

/-- Bytes to sextets, the final partial group zero-padded in its low bits. -/
def toSextets : List Nat → List Nat
  | [] => []
  | [b0] => [b0 / 4, b0 % 4 * 16]
  | [b0, b1] => [b0 / 4, b0 % 4 * 16 + b1 / 16, b1 % 16 * 4]
  | b0 :: b1 :: b2 :: rest =>
      b0 / 4 :: (b0 % 4 * 16 + b1 / 16) :: (b1 % 16 * 4 + b2 / 64) :: b2 % 64 :: toSextets rest

def eqChar : Char := Char.ofNat 61

/-- Padding `=` characters appended by `btoa`, by message length mod 3. -/
def b64PadList : Nat → List Char
  | 1 => [eqChar, eqChar]
  | 2 => [eqChar]
  | _ => []

def btoaChars (bs : List Nat) : List Char :=
  (toSextets bs).map b64Char ++ b64PadList (bs.length % 3)

/-- Model of `btoa`: base64 of the code units; `none` models the
`InvalidCharacterError` thrown on a code unit above 255. -/
def btoa (s : String) : Option String :=
  if s.data.all (fun c => c.toNat < 256) then
    some (String.mk (btoaChars (s.data.map Char.toNat)))
  else none

/-- Remove up to two trailing `=` characters, as forgiving-base64 does. -/
def dropTrailingEq (cs : List Char) : List Char :=
  match cs.reverse with
  | c1 :: c2 :: rest =>
      if c1 = eqChar ∧ c2 = eqChar then rest.reverse
      else if c1 = eqChar then (c2 :: rest).reverse
      else cs
  | [c1] => if c1 = eqChar then [] else cs
  | [] => cs

/-- Sextets back to bytes; a trailing group of 2 or 3 sextets carries 1 or
2 bytes, surplus low bits discarded as forgiving-base64 prescribes. -/
def b64DecodeSextets : List Nat → List Nat
  | [] => []
  | [_] => []
  | [s0, s1] => [s0 * 4 + s1 / 16]
  | [s0, s1, s2] => [s0 * 4 + s1 / 16, s1 % 16 * 16 + s2 / 4]
  | s0 :: s1 :: s2 :: s3 :: rest =>
      (s0 * 4 + s1 / 16) :: (s1 % 16 * 16 + s2 / 4) :: (s2 % 4 * 64 + s3) :: b64DecodeSextets rest

/-- Model of `atob` (WHATWG forgiving-base64 on whitespace-free input):
strip trailing padding when the length divides by 4, reject a remainder
of 1 or any non-alphabet character, decode sextet groups to bytes. -/
def atob (s : String) : Option String :=
  let cs := s.data
  let cs2 := if cs.length % 4 = 0 then dropTrailingEq cs else cs
  if cs2.length % 4 = 1 then none
  else
    match cs2.mapM b64Index with
    | none => none
    | some sx => some (String.mk ((b64DecodeSextets sx).map Char.ofNat))

/-- Scalar JSON values of the modelled subset. -/
inductive JScalar where
  | str (s : String)
  | num (n : Int)
  | btrue
  | bfalse
  | jnull
  deriving DecidableEq

/-- JSON values of the modelled subset: scalars and one-level objects. -/
inductive Json where
  | scalar (v : JScalar)
  | obj (fields : List (String × JScalar))
  deriving DecidableEq

def dquoteC : Char := Char.ofNat 34

def bslashC : Char := Char.ofNat 92

def lbraceC : Char := Char.ofNat 123

def rbraceC : Char := Char.ofNat 125

/-- String-body escaping performed by `JSON.stringify`: quote and
backslash (control characters never occur in the payloads modelled). -/
def escChars : List Char → List Char
  | [] => []
  | c :: cs =>
      if c = dquoteC then bslashC :: dquoteC :: escChars cs
      else if c = bslashC then bslashC :: bslashC :: escChars cs
      else c :: escChars cs

/-- Payload record of `src/lib/hash.ts` (interface `QRPayload`). -/
structure QRPayload where
  hash : String
  product_no : String
  deriving DecidableEq

/-- Model of `JSON.stringify(payload)` at its single call site: a
two-field object of strings in insertion order `hash`, `product_no`. -/
def stringifyPayload (p : QRPayload) : String :=
  String.mk
    (lbraceC :: dquoteC ::
      ("hash".data ++ dquoteC :: ':' :: dquoteC ::
        (escChars p.hash.data ++ dquoteC :: ',' :: dquoteC ::
          ("product_no".data ++ dquoteC :: ':' :: dquoteC ::
            (escChars p.product_no.data ++ [dquoteC, rbraceC])))))

/-- Model of `encodeQRPayload` (src/lib/hash.ts, lines 41–43):
`btoa(JSON.stringify(payload))`; `none` models the exception `btoa`
throws on non-Latin-1 content. -/
def encodeQRPayload (p : QRPayload) : Option String :=
  btoa (stringifyPayload p)

/-- JSON short escapes accepted inside string literals. -/
def unescChar (c : Char) : Option Char :=
  if c = dquoteC then some dquoteC
  else if c = bslashC then some bslashC
  else if c = '/' then some '/'
  else if c = 'n' then some (Char.ofNat 10)
  else if c = 't' then some (Char.ofNat 9)
  else if c = 'r' then some (Char.ofNat 13)
  else if c = 'b' then some (Char.ofNat 8)
  else if c = 'f' then some (Char.ofNat 12)
  else none

/-- Parse a JSON string body after its opening quote, returning the
unescaped characters and the remainder after the closing quote. -/
def parseStringRest : List Char → Option (List Char × List Char)
  | [] => none
  | c :: cs =>
      if c = dquoteC then some ([], cs)
      else if c = bslashC then
        match cs with
        | [] => none
        | e :: cs2 =>
            match unescChar e with
            | none => none
            | some u =>
                match parseStringRest cs2 with
                | none => none
                | some (out, rest) => some (u :: out, rest)
      else
        match parseStringRest cs with
        | none => none
        | some (out, rest) => some (c :: out, rest)

/-- Parse an integer JSON number (the subset's numeric grammar). -/
def parseNum (cs : List Char) : Option (Int × List Char) :=
  match cs with
  | [] => none
  | c :: rest =>
      if c = '-' then
        let ds := rest.takeWhile isDigitC
        if ds = [] then none
        else some (-(digitsToNat ds : Int), rest.dropWhile isDigitC)
      else
        let ds := cs.takeWhile isDigitC
        if ds = [] then none
        else some ((digitsToNat ds : Int), cs.dropWhile isDigitC)

/-- Parse one scalar JSON value. -/
def parseScalarCs (cs : List Char) : Option (JScalar × List Char) :=
  match cs with
  | [] => none
  | c :: rest =>
      if c = dquoteC then
        match parseStringRest rest with
        | none => none
        | some (out, r) => some (JScalar.str (String.mk out), r)
      else if c = 't' then
        match rest with
        | c1 :: c2 :: c3 :: r => if c1 = 'r' ∧ c2 = 'u' ∧ c3 = 'e' then some (JScalar.btrue, r) else none
        | _ => none
      else if c = 'f' then
        match rest with
        | c1 :: c2 :: c3 :: c4 :: r =>
            if c1 = 'a' ∧ c2 = 'l' ∧ c3 = 's' ∧ c4 = 'e' then some (JScalar.bfalse, r) else none
        | _ => none
      else if c = 'n' then
        match rest with
        | c1 :: c2 :: c3 :: r => if c1 = 'u' ∧ c2 = 'l' ∧ c3 = 'l' then some (JScalar.jnull, r) else none
        | _ => none
      else
        match parseNum cs with
        | none => none
        | some (n, r) => some (JScalar.num n, r)

/-- Parse the members of a non-empty object, positioned after the opening
brace; fuel decreases once per member, so member count bounds it. -/
def parseMembers : Nat → List Char → Option (List (String × JScalar) × List Char)
  | 0, _ => none
  | fuel + 1, cs =>
      match cs with
      | [] => none
      | c :: rest =>
          if c = dquoteC then
            match parseStringRest rest with
            | none => none
            | some (key, r1) =>
                match r1 with
                | [] => none
                | c2 :: r2 =>
                    if c2 = ':' then
                      match parseScalarCs r2 with
                      | none => none
                      | some (v, r3) =>
                          match r3 with
                          | [] => none
                          | c3 :: r4 =>
                              if c3 = ',' then
                                match parseMembers fuel r4 with
                                | none => none
                                | some (ms, rest2) => some ((String.mk key, v) :: ms, rest2)
                              else if c3 = rbraceC then some ([(String.mk key, v)], r4)
                              else none
                    else none
          else none

/-- Parse one JSON value of the subset, returning the remainder. -/
def parseJsonList (cs : List Char) : Option (Json × List Char) :=
  match cs with
  | [] => none
  | c :: rest =>
      if c = lbraceC then
        match rest with
        | [] => none
        | c2 :: rest2 =>
            if c2 = rbraceC then some (Json.obj [], rest2)
            else
              match parseMembers (rest.length + 1) rest with
              | none => none
              | some (ms, r) => some (Json.obj ms, r)
      else
        match parseScalarCs cs with
        | none => none
        | some (v, r) => some (Json.scalar v, r)

/-- Model of `JSON.parse` on the subset: the whole input must be one value. -/
def parseJson (s : String) : Option Json :=
  match parseJsonList s.data with
  | some (j, []) => some j
  | _ => none

/-- Model of `decodeQRPayload` (src/lib/hash.ts, lines 45–52):
`atob` then `JSON.parse` inside a catch-all returning `null`. The source
casts the parsed value to `QRPayload` without any structural check, so
the model returns whatever JSON value parsed; `none` models `null`. -/
def decodeQRPayload (s : String) : Option Json :=
  match atob s with
  | none => none
  | some d => parseJson d

/-- Verification statuses of the scan page (`VerificationStatus` type in
`src/unnamed/part_006`, minus the transient `null` UI state). -/
inductive VerificationStatus where
  | original
  | fake
  | expired
  | unknown
  deriving DecidableEq

/-- Stored product row as the verification path reads it. -/
structure Product where
  product_no : String
  product_name : String
  brand : String
  manufacture_date : String
  expiry_date : String
  qr_hash : String
  deriving DecidableEq

/-- Five canonical attributes as `verifyProduct` passes them on. -/
def attrsOf (p : Product) : ProductAttrs :=
  ⟨p.product_no, p.product_name, p.brand, p.manufacture_date, p.expiry_date⟩

/-- Outcome of the supabase single-row lookup. The source receives
`{ data, error }` and tests `error || !product`, so a not-found error and
a transient infrastructure error arrive through the same channel; the
model keeps them as distinct constructors to expose what the code does
with each. -/
inductive LookupOutcome where
  | ok (p : Product)
  | notFound
  | transientFailure
  deriving DecidableEq

/-- Row inserted into the `scans` table by `recordScan`. -/
structure ScanRecord where
  product_no : String
  user_id : String
  is_fake : Bool
  verification_result : String
  deriving DecidableEq

/-- Observable outcome of one `verifyProduct` call: the status it
settles on, the scan rows persisted, and the product details shown. -/
structure VerifyResult where
  status : VerificationStatus
  scans : List ScanRecord
  productDetails : Option Product
  deriving DecidableEq

/-- Model of `recordScan` (src/unnamed/part_006, lines 443–456). The
guard `if (!user) return` skips the insert entirely when nobody is
authenticated; `insertOk = false` models the insert failing, which the
surrounding try/catch swallows. -/
def recordScan (user : Option String) (insertOk : Bool) (productNo : String)
    (isFake : Bool) (result : String) : List ScanRecord :=
  match user with
  | none => []
  | some u => if insertOk then [⟨productNo, u, isFake, result⟩] else []

/-- Model of `verifyProduct` (src/unnamed/part_006, lines 357–441).
`now` is the wall clock, `user` the authenticated user id, `insertOk`
whether the scan insert succeeds, `lookup` the supabase lookup outcome.
The source guards the hash branch with the truthiness test `if (qrHash)`:
both an absent fingerprint and the empty string are falsy in JS and fall
through to the manual-entry branch, so the model takes the hash branch
only for `some h` with `h ≠ ""`. -/
def verifyProduct (now : SimpleDate) (user : Option String) (insertOk : Bool)
    (lookup : LookupOutcome) (productNumber : String) (qrHash : Option String) :
    VerifyResult :=
  match lookup with
  | LookupOutcome.notFound =>
      ⟨VerificationStatus.unknown,
       recordScan user insertOk productNumber true "Product not found in database", none⟩
  | LookupOutcome.transientFailure =>
      ⟨VerificationStatus.unknown,
       recordScan user insertOk productNumber true "Product not found in database", none⟩
  | LookupOutcome.ok p =>
      if isProductExpired now p.expiry_date then
        ⟨VerificationStatus.expired,
         recordScan user insertOk productNumber true "Product expired", some p⟩
      else
        match qrHash with
        | some h =>
            if h = "" then
              ⟨VerificationStatus.original,
               recordScan user insertOk productNumber false "Manual verification - Product exists",
               some p⟩
            else if verifyProductHash h (attrsOf p) && h == p.qr_hash then
              ⟨VerificationStatus.original,
               recordScan user insertOk productNumber false "Hash verified - Original", some p⟩
            else
              ⟨VerificationStatus.fake,
               recordScan user insertOk productNumber true "Hash mismatch - Fake", some p⟩
        | none =>
            ⟨VerificationStatus.original,
             recordScan user insertOk productNumber false "Manual verification - Product exists",
             some p⟩

/-- Product row as written by the admin page. -/
structure ProductRow where
  product_no : String
  product_name : String
  brand : String
  manufacture_date : String
  expiry_date : String
  qr_hash : String
  qr_image : String
  product_image : Option String
  deriving DecidableEq

def rowAttrs (r : ProductRow) : ProductAttrs :=
  ⟨r.product_no, r.product_name, r.brand, r.manufacture_date, r.expiry_date⟩

/-- Row written by the insert branch of `handleSubmit`
(`src/pages/admin/ProductManagement.tsx`): the spread of `formData`
together with the freshly computed `qr_hash` and QR image. -/
def handleSubmitInsert (formData : ProductAttrs) (qrImage : String)
    (productImage : Option String) : ProductRow :=
  ⟨formData.product_no, formData.product_name, formData.brand,
   formData.manufacture_date, formData.expiry_date,
   generateProductHash formData, qrImage, productImage⟩

/-- Row resulting from the update branch of `handleSubmit`: every
attribute column and `qr_hash` come from `updateData`; the stored
product image survives only when no new image URL was produced. -/
def handleSubmitUpdate (old : ProductRow) (formData : ProductAttrs) (qrImage : String)
    (productImage : Option String) : ProductRow :=
  ⟨formData.product_no, formData.product_name, formData.brand,
   formData.manufacture_date, formData.expiry_date,
   generateProductHash formData, qrImage,
   match productImage with
   | some u => some u
   | none => old.product_image⟩

/-- Product invariant of the spec: the stored fingerprint is the
engine's output over the five stored canonical attributes. -/
def fingerprintInvariant (r : ProductRow) : Prop :=
  r.qr_hash = generateProductHash (rowAttrs r)

/-- Character code of `Char.ofNat` below the surrogate range. -/
theorem toNat_ofNat_valid (k : Nat) (hv : k < 55296) : (Char.ofNat k).toNat = k := by
  have h : Nat.isValidChar k := Or.inl hv
  rw [Char.ofNat, dif_pos h]
  simp [Char.ofNatAux, Char.toNat, UInt32.toNat, BitVec.toNat_ofNatLt]

/-- Rebuilding a string from its characters is the identity. -/
theorem mk_data (s : String) : String.mk s.data = s := by
  cases s
  rfl

/-- Lowercase hexadecimal character test (`0`–`9`, `a`–`f`). -/
def isLowerHexDigit (c : Char) : Bool :=
  decide ((48 ≤ c.toNat ∧ c.toNat ≤ 57) ∨ (97 ≤ c.toNat ∧ c.toNat ≤ 102))

theorem hexDigit_lower (n : Nat) (h : n < 16) : isLowerHexDigit (hexDigit n) = true := by
  interval_cases n <;> decide

theorem hexOfBytes_length (bs : List Nat) : (hexOfBytes bs).length = 2 * bs.length := by
  induction bs with
  | nil => rfl
  | cons b t ih => simp [hexOfBytes, ih]; omega

theorem hexOfBytes_lower (bs : List Nat) (hb : ∀ b ∈ bs, b < 256) :
    ∀ c ∈ hexOfBytes bs, isLowerHexDigit c = true := by
  induction bs with
  | nil => intro c hc; simp [hexOfBytes] at hc
  | cons b t ih =>
      intro c hc
      have hblt : b < 256 := hb b (by simp)
      simp only [hexOfBytes, List.mem_cons] at hc
      rcases hc with h1 | h2 | h3
      · subst h1; exact hexDigit_lower _ (by omega)
      · subst h2; exact hexDigit_lower _ (by omega)
      · exact ih (fun x hx => hb x (by simp [hx])) c h3

theorem wordBytes_length (w : Nat) : (Sha256.wordBytes w).length = 4 := rfl

theorem wordBytes_lt (w : Nat) : ∀ b ∈ Sha256.wordBytes w, b < 256 := by
  intro b hb
  simp [Sha256.wordBytes] at hb
  rcases hb with h | h | h | h <;> subst h <;> exact Nat.mod_lt _ (by norm_num)

theorem digest_length (m : List Nat) : (Sha256.digest m).length = 32 := by
  simp [Sha256.digest, Sha256.regsToBytes, wordBytes_length]

theorem digest_lt (m : List Nat) : ∀ b ∈ Sha256.digest m, b < 256 := by
  intro b hb
  simp only [Sha256.digest, Sha256.regsToBytes, List.mem_append] at hb
  rcases hb with ((((((h | h) | h) | h) | h) | h) | h) | h <;> exact wordBytes_lt _ b h

theorem sha256Hex_length (s : String) : (sha256Hex s).length = 64 := by
  simp [sha256Hex, String.mk_length, hexOfBytes_length, digest_length]

theorem sha256Hex_lower (s : String) : ∀ c ∈ (sha256Hex s).data, isLowerHexDigit c = true := by
  intro c hc
  exact hexOfBytes_lower _ (digest_lt _) c hc

/-- Counterexample to claim C1: the source guards the fingerprint branch
with the truthiness test `if (qrHash)`, and the empty string is falsy in
JS, so a supplied empty fingerprint — reachable through a decoded QR
payload whose `hash` field is `""`, which the unchecked cast lets
through — mismatches both the recomputed and the stored fingerprint yet
yields `original` via the manual-entry branch, where the claim requires
`fake` on any mismatch. -/
theorem C1_empty_fingerprint_original :
    ("" : String) ≠ generateProductHash
        (attrsOf ⟨"P-100", "Widget", "Acme", "2024-01-01", "2030-01-01", "x"⟩)
  ∧ ("" : String)
      ≠ (⟨"P-100", "Widget", "Acme", "2024-01-01", "2030-01-01", "x"⟩ : Product).qr_hash
  ∧ (verifyProduct ⟨2025, 6, 15⟩ (some "u1") true
        (LookupOutcome.ok ⟨"P-100", "Widget", "Acme", "2024-01-01", "2030-01-01", "x"⟩)
        "P-100" (some "")).status = VerificationStatus.original :=
  ⟨by decide, by decide, by decide⟩

/-- Claim C1 (amended): `verify` follows the decision table in strict
precedence order — not-found yields `unknown` unconditionally; otherwise
a stored expiry strictly before the current time yields `expired`
regardless of the supplied fingerprint; otherwise a supplied nonempty
fingerprint yields `original` exactly when it equals both the recomputed
and the stored fingerprint and `fake` on any mismatch; otherwise — no
fingerprint, or an empty one, which the `if (qrHash)` truthiness test
treats as absent — the status is `original`. -/
theorem C1_decision_table (now : SimpleDate) (user : Option String) (ok : Bool) (pn : String) :
    (∀ qh, (verifyProduct now user ok LookupOutcome.notFound pn qh).status
        = VerificationStatus.unknown)
  ∧ (∀ p qh, isProductExpired now p.expiry_date = true →
        (verifyProduct now user ok (LookupOutcome.ok p) pn qh).status
        = VerificationStatus.expired)
  ∧ (∀ p hsh, hsh ≠ "" → isProductExpired now p.expiry_date = false →
        ((verifyProduct now user ok (LookupOutcome.ok p) pn (some hsh)).status
            = VerificationStatus.original
          ↔ hsh = generateProductHash (attrsOf p) ∧ hsh = p.qr_hash))
  ∧ (∀ p hsh, hsh ≠ "" → isProductExpired now p.expiry_date = false →
        ¬(hsh = generateProductHash (attrsOf p) ∧ hsh = p.qr_hash) →
        (verifyProduct now user ok (LookupOutcome.ok p) pn (some hsh)).status
        = VerificationStatus.fake)
  ∧ (∀ p, isProductExpired now p.expiry_date = false →
        (verifyProduct now user ok (LookupOutcome.ok p) pn none).status
        = VerificationStatus.original)
  ∧ (∀ p, isProductExpired now p.expiry_date = false →
        (verifyProduct now user ok (LookupOutcome.ok p) pn (some "")).status
        = VerificationStatus.original) := by
  refine ⟨fun qh => rfl, ?_, ?_, ?_, ?_, ?_⟩
  · intro p qh hexp
    simp [verifyProduct, hexp]
  · intro p hsh hne hexp
    by_cases hcond : (verifyProductHash hsh (attrsOf p) && hsh == p.qr_hash) = true
    · simp only [verifyProduct, hexp, Bool.false_eq_true, if_false, hne, hcond, if_true]
      simp only [verifyProductHash, Bool.and_eq_true, beq_iff_eq] at hcond
      simp only [hcond, and_self, iff_true]
      simp [hcond.1 ▸ hcond.2]
    · simp only [Bool.not_eq_true] at hcond
      simp only [verifyProduct, hexp, hne, Bool.false_eq_true, if_false, hcond]
      simp only [verifyProductHash, Bool.and_eq_false_iff, beq_eq_false_iff_ne, ne_eq] at hcond
      constructor
      · intro hc
        exact absurd hc (by simp)
      · intro hc
        rcases hcond with hc1 | hc2
        · exact absurd hc.1 hc1
        · exact absurd hc.2 hc2
  · intro p hsh hne hexp hmis
    have hcond : (verifyProductHash hsh (attrsOf p) && hsh == p.qr_hash) = false := by
      simp only [verifyProductHash, Bool.and_eq_false_iff, beq_eq_false_iff_ne, ne_eq]
      by_cases h1 : hsh = generateProductHash (attrsOf p)
      · right
        intro h2
        exact hmis ⟨h1, h2⟩
      · left
        exact h1
    simp [verifyProduct, hexp, hne, hcond]
  · intro p hexp
    simp [verifyProduct, hexp]
  · intro p hexp
    simp [verifyProduct, hexp]

/-- Witness for C1: concrete instances of the expired branch (expiry
2020 before a 2025 clock, mismatching fingerprint supplied) and of the
fake branch (valid product, 64-zero fingerprint that matches neither
hash). -/
theorem C1_decision_table_witness :
    (verifyProduct ⟨2025, 6, 15⟩ (some "u1") true
        (LookupOutcome.ok ⟨"P-200", "Widget", "Acme", "2019-01-01", "2020-01-01", "deadbeef"⟩)
        "P-200"
        (some "0000000000000000000000000000000000000000000000000000000000000000")).status
      = VerificationStatus.expired
  ∧ (verifyProduct ⟨2025, 6, 15⟩ (some "u1") true
        (LookupOutcome.ok ⟨"P-100", "Widget", "Acme", "2024-01-01", "2030-01-01",
          "af39f37a41bcf1e577...not-matching"⟩)
        "P-100"
        (some "0000000000000000000000000000000000000000000000000000000000000000")).status
      = VerificationStatus.fake := by
  constructor
  · exact (C1_decision_table ⟨2025, 6, 15⟩ (some "u1") true "P-200").2.1
      ⟨"P-200", "Widget", "Acme", "2019-01-01", "2020-01-01", "deadbeef"⟩
      (some "0000000000000000000000000000000000000000000000000000000000000000")
      (by decide)
  · exact (C1_decision_table ⟨2025, 6, 15⟩ (some "u1") true "P-100").2.2.2.1
      ⟨"P-100", "Widget", "Acme", "2024-01-01", "2030-01-01", "af39f37a41bcf1e577...not-matching"⟩
      "0000000000000000000000000000000000000000000000000000000000000000"
      (by decide)
      (by decide)
      (fun hc => absurd hc.2 (by decide))

/-- Counterexample to claim C2: with no authenticated user, a successful
verification (existing, unexpired product, manual entry) appends zero
scan records, not exactly one — `recordScan` starts with
`if (!user) return`. -/
theorem C2_no_user_no_record :
    (verifyProduct ⟨2025, 6, 15⟩ none true
        (LookupOutcome.ok ⟨"P-100", "Widget", "Acme", "2024-01-01", "2030-01-01", "x"⟩)
        "P-100" none).status = VerificationStatus.original
  ∧ (verifyProduct ⟨2025, 6, 15⟩ none true
        (LookupOutcome.ok ⟨"P-100", "Widget", "Acme", "2024-01-01", "2030-01-01", "x"⟩)
        "P-100" none).scans = [] := by
  constructor <;> decide

/-- Claim C2 (amended): when a user is authenticated and the insert
succeeds, every branch appends exactly one scan record with
`flagged = true` for the unknown, expired and fake outcomes,
`flagged = false` for the original outcomes (the hash-verified, the
manual-entry, and the empty-fingerprint case, which the `if (qrHash)`
truthiness test routes to the manual branch), and the branch's reason
string; when no user is authenticated, the insert is skipped and no
record is appended. -/
theorem C2_scan_records (now : SimpleDate) (u pn : String) :
    (∀ qh, (verifyProduct now (some u) true LookupOutcome.notFound pn qh).scans
        = [⟨pn, u, true, "Product not found in database"⟩])
  ∧ (∀ p qh, isProductExpired now p.expiry_date = true →
        (verifyProduct now (some u) true (LookupOutcome.ok p) pn qh).scans
        = [⟨pn, u, true, "Product expired"⟩])
  ∧ (∀ p hsh, hsh ≠ "" → isProductExpired now p.expiry_date = false →
        (verifyProductHash hsh (attrsOf p) && hsh == p.qr_hash) = true →
        (verifyProduct now (some u) true (LookupOutcome.ok p) pn (some hsh)).scans
        = [⟨pn, u, false, "Hash verified - Original"⟩])
  ∧ (∀ p hsh, hsh ≠ "" → isProductExpired now p.expiry_date = false →
        (verifyProductHash hsh (attrsOf p) && hsh == p.qr_hash) = false →
        (verifyProduct now (some u) true (LookupOutcome.ok p) pn (some hsh)).scans
        = [⟨pn, u, true, "Hash mismatch - Fake"⟩])
  ∧ (∀ p, isProductExpired now p.expiry_date = false →
        (verifyProduct now (some u) true (LookupOutcome.ok p) pn none).scans
        = [⟨pn, u, false, "Manual verification - Product exists"⟩])
  ∧ (∀ p, isProductExpired now p.expiry_date = false →
        (verifyProduct now (some u) true (LookupOutcome.ok p) pn (some "")).scans
        = [⟨pn, u, false, "Manual verification - Product exists"⟩])
  ∧ (∀ lookup qh, (verifyProduct now none true lookup pn qh).scans = []) := by
  refine ⟨fun qh => rfl, ?_, ?_, ?_, ?_, ?_, ?_⟩
  · intro p qh hexp
    simp [verifyProduct, recordScan, hexp]
  · intro p hsh hne hexp hcond
    simp [verifyProduct, recordScan, hexp, hne, hcond]
  · intro p hsh hne hexp hcond
    simp [verifyProduct, recordScan, hexp, hne, hcond]
  · intro p hexp
    simp [verifyProduct, recordScan, hexp]
  · intro p hexp
    simp [verifyProduct, recordScan, hexp]
  · intro lookup qh
    cases lookup <;> cases qh <;>
      simp only [verifyProduct, recordScan] <;>
      (repeat' split) <;> rfl

/-- Witness for C2 (amended): concrete manual-entry branch with an
authenticated user appends exactly the expected record. -/
theorem C2_scan_records_witness :
    (verifyProduct ⟨2025, 6, 15⟩ (some "u1") true
        (LookupOutcome.ok ⟨"P-100", "Widget", "Acme", "2024-01-01", "2030-01-01", "x"⟩)
        "P-100" none).scans
      = [⟨"P-100", "u1", false, "Manual verification - Product exists"⟩] := by
  exact (C2_scan_records ⟨2025, 6, 15⟩ "u1" "P-100").2.2.2.2.1
    ⟨"P-100", "Widget", "Acme", "2024-01-01", "2030-01-01", "x"⟩ (by decide)

/-- Counterexample to claim C5: a transient-infrastructure lookup
failure is returned as the terminal status `unknown` (with a flagged
scan record), not propagated as a retryable error — the source tests
`error || !product` without inspecting the error kind. -/
theorem C5_transient_is_unknown :
    (verifyProduct ⟨2025, 6, 15⟩ (some "u1") true LookupOutcome.transientFailure
        "P-1" none).status = VerificationStatus.unknown := by
  decide

/-- Claim C5 (amended): `verify` does not distinguish transient
infrastructure failures from not-found; any lookup error is silently
mapped to the terminal status `unknown`, with a result identical in
every observable component to the not-found outcome. -/
theorem C5_transient_collapsed (now : SimpleDate) (user : Option String) (ok : Bool)
    (pn : String) (qh : Option String) :
    verifyProduct now user ok LookupOutcome.transientFailure pn qh
      = verifyProduct now user ok LookupOutcome.notFound pn qh
  ∧ (verifyProduct now user ok LookupOutcome.transientFailure pn qh).status
      = VerificationStatus.unknown :=
  ⟨rfl, rfl⟩

/-- Claim C6: `generateProductHash` is the lowercase-hex SHA-256 digest
of the five canonical attributes joined in fixed order by the `|`
delimiter; its output always has exactly 64 characters, all lowercase
hexadecimal. Determinism is inherent: the model is a pure function of
its argument, mirroring the source's freedom from randomness, keys and
external state. -/
theorem C6_fingerprint_shape (p : ProductAttrs) :
    generateProductHash p
        = sha256Hex (p.product_no ++ "|" ++ p.product_name ++ "|" ++ p.brand ++ "|"
            ++ p.manufacture_date ++ "|" ++ p.expiry_date)
  ∧ (generateProductHash p).length = 64
  ∧ (∀ c ∈ (generateProductHash p).data, isLowerHexDigit c = true) :=
  ⟨rfl, sha256Hex_length _, sha256Hex_lower _⟩

/-- Claim C7: both the insert and the update branch of `handleSubmit`
store a row whose `qr_hash` is `generateProductHash` of exactly the five
attribute columns stored in that same row, so the fingerprint invariant
holds after every create or update. -/
theorem C7_fingerprint_invariant (formData : ProductAttrs) (qrImage : String)
    (productImage : Option String) (old : ProductRow) :
    fingerprintInvariant (handleSubmitInsert formData qrImage productImage)
  ∧ fingerprintInvariant (handleSubmitUpdate old formData qrImage productImage) :=
  ⟨rfl, rfl⟩

/-- Claim C8: the verification status and the returned product details
are identical whether the scan-record insert succeeds or fails; the
failure is swallowed by `recordScan`'s try/catch and never surfaces. -/
theorem C8_recorder_failure_harmless (now : SimpleDate) (user : Option String)
    (lookup : LookupOutcome) (pn : String) (qh : Option String) :
    (verifyProduct now user false lookup pn qh).status
      = (verifyProduct now user true lookup pn qh).status
  ∧ (verifyProduct now user false lookup pn qh).productDetails
      = (verifyProduct now user true lookup pn qh).productDetails := by
  cases lookup <;> cases qh <;>
    simp only [verifyProduct] <;>
    (repeat' split) <;>
    first
      | exact ⟨trivial, trivial⟩
      | exact ⟨rfl, rfl⟩

/-- Claim C9: the unescaped `|` join makes distinct attribute tuples
collide — identifier `A|B` with name `C` and identifier `A` with name
`B|C` concatenate to the same byte string, so their fingerprints are
identical while the tuples differ. -/
theorem C9_delimiter_collision :
    (⟨"A|B", "C", "Acme", "2024-01-01", "2030-01-01"⟩ : ProductAttrs)
      ≠ (⟨"A", "B|C", "Acme", "2024-01-01", "2030-01-01"⟩ : ProductAttrs)
  ∧ dataString ⟨"A|B", "C", "Acme", "2024-01-01", "2030-01-01"⟩
      = dataString ⟨"A", "B|C", "Acme", "2024-01-01", "2030-01-01"⟩
  ∧ generateProductHash ⟨"A|B", "C", "Acme", "2024-01-01", "2030-01-01"⟩
      = generateProductHash ⟨"A", "B|C", "Acme", "2024-01-01", "2030-01-01"⟩ := by
  refine ⟨by decide, by decide, ?_⟩
  show sha256Hex (dataString ⟨"A|B", "C", "Acme", "2024-01-01", "2030-01-01"⟩)
      = sha256Hex (dataString ⟨"A", "B|C", "Acme", "2024-01-01", "2030-01-01"⟩)
  exact congrArg sha256Hex (by decide)

/-- Claim C10: `encodeQRPayload` is not total — an identifier containing
a character above code point 255 (here U+4E2D) survives JSON
serialization unescaped, and the base64 step rejects it, so the encoder
throws (modelled as `none`) instead of returning a token. -/
theorem C10_encode_not_total :
    ((stringifyPayload ⟨"abc123", String.singleton (Char.ofNat 20013)⟩).data.any
        (fun c => decide (255 < c.toNat)) = true)
  ∧ encodeQRPayload ⟨"abc123", String.singleton (Char.ofNat 20013)⟩ = none := by
  constructor <;> decide

theorem escChars_quote (cs : List Char) :
    escChars (dquoteC :: cs) = bslashC :: dquoteC :: escChars cs := by
  rw [escChars.eq_def]
  simp

theorem escChars_bslash (cs : List Char) :
    escChars (bslashC :: cs) = bslashC :: bslashC :: escChars cs := by
  rw [escChars.eq_def]
  simp [(by decide : ¬(bslashC = dquoteC))]

theorem escChars_plain (c : Char) (cs : List Char) (hq : c ≠ dquoteC) (hb : c ≠ bslashC) :
    escChars (c :: cs) = c :: escChars cs := by
  rw [escChars.eq_def]
  simp [hq, hb]

theorem parseStringRest_quote (cs : List Char) :
    parseStringRest (dquoteC :: cs) = some ([], cs) := by
  rw [parseStringRest.eq_def]
  simp

theorem parseStringRest_bslash (e : Char) (u : Char) (cs : List Char)
    (hu : unescChar e = some u) :
    parseStringRest (bslashC :: e :: cs) =
      match parseStringRest cs with
      | none => none
      | some (out, r) => some (u :: out, r) := by
  rw [parseStringRest.eq_def]
  simp [(by decide : ¬(bslashC = dquoteC)), hu]

theorem parseStringRest_plain (c : Char) (cs : List Char) (hq : c ≠ dquoteC) (hb : c ≠ bslashC) :
    parseStringRest (c :: cs) =
      match parseStringRest cs with
      | none => none
      | some (out, r) => some (c :: out, r) := by
  rw [parseStringRest.eq_def]
  simp [hq, hb]

theorem parseStringRest_esc (l rest : List Char) :
    parseStringRest (escChars l ++ dquoteC :: rest) = some (l, rest) := by
  induction l with
  | nil =>
      rw [escChars.eq_def]
      simp [parseStringRest_quote]
  | cons c cs ih =>
      by_cases hq : c = dquoteC
      · subst hq
        rw [escChars_quote, List.cons_append, List.cons_append,
          parseStringRest_bslash dquoteC dquoteC _ (by decide), ih]
      · by_cases hb : c = bslashC
        · subst hb
          rw [escChars_bslash, List.cons_append, List.cons_append,
            parseStringRest_bslash bslashC bslashC _ (by decide), ih]
        · rw [escChars_plain c cs hq hb, List.cons_append,
            parseStringRest_plain c _ hq hb, ih]

theorem b64Char_ne_eq (n : Nat) : b64Char n ≠ eqChar := by
  unfold b64Char eqChar
  intro hcontra
  have h2 := congrArg Char.toNat hcontra
  split_ifs at h2 <;>
    rw [toNat_ofNat_valid, toNat_ofNat_valid] at h2 <;> omega

theorem b64Index_b64Char (n : Nat) (h : n < 64) : b64Index (b64Char n) = some n := by
  interval_cases n <;> decide

theorem escChars_lt (l : List Char) (h : ∀ c ∈ l, c.toNat < 256) :
    ∀ c ∈ escChars l, c.toNat < 256 := by
  induction l with
  | nil => intro c hc; rw [escChars.eq_def] at hc; simp at hc
  | cons x xs ih =>
      have hx : x.toNat < 256 := h x (by simp)
      have hxs : ∀ c ∈ xs, c.toNat < 256 := fun c hc => h c (by simp [hc])
      intro c hc
      by_cases hq : x = dquoteC
      · subst hq
        rw [escChars_quote] at hc
        simp only [List.mem_cons] at hc
        rcases hc with rfl | rfl | hc
        · decide
        · decide
        · exact ih hxs c hc
      · by_cases hb : x = bslashC
        · subst hb
          rw [escChars_bslash] at hc
          simp only [List.mem_cons] at hc
          rcases hc with rfl | rfl | hc
          · decide
          · decide
          · exact ih hxs c hc
        · rw [escChars_plain x xs hq hb] at hc
          simp only [List.mem_cons] at hc
          rcases hc with rfl | hc
          · exact hx
          · exact ih hxs c hc

theorem toSextets_len : ∀ bs : List Nat,
    (toSextets bs).length + (b64PadList (bs.length % 3)).length = 4 * ((bs.length + 2) / 3)
  | [] => by decide
  | [b0] => by simp [toSextets, b64PadList]
  | [b0, b1] => by simp [toSextets, b64PadList]
  | b0 :: b1 :: b2 :: rest => by
      have ih := toSextets_len rest
      simp only [toSextets, List.length_cons]
      have h3 : (rest.length + 1 + 1 + 1) % 3 = rest.length % 3 := by omega
      rw [h3]
      omega

theorem toSextets_lt : ∀ bs : List Nat, (∀ b ∈ bs, b < 256) → ∀ x ∈ toSextets bs, x < 64
  | [], _ => by intro x hx; simp [toSextets] at hx
  | [b0], h => by
      intro x hx
      have hb0 : b0 < 256 := h b0 (by simp)
      simp [toSextets] at hx
      rcases hx with h1 | h1 <;> omega
  | [b0, b1], h => by
      intro x hx
      have hb0 : b0 < 256 := h b0 (by simp)
      have hb1 : b1 < 256 := h b1 (by simp)
      simp [toSextets] at hx
      rcases hx with h1 | h1 | h1 <;> omega
  | b0 :: b1 :: b2 :: rest, h => by
      intro x hx
      have hb0 : b0 < 256 := h b0 (by simp)
      have hb1 : b1 < 256 := h b1 (by simp)
      have hb2 : b2 < 256 := h b2 (by simp)
      have ih := toSextets_lt rest (fun b hb => h b (by simp [hb]))
      simp only [toSextets, List.mem_cons] at hx
      rcases hx with h1 | h1 | h1 | h1 | h1
      · omega
      · omega
      · omega
      · omega
      · exact ih x h1

theorem mapM_b64 (l : List Nat) (h : ∀ x ∈ l, x < 64) :
    (l.map b64Char).mapM b64Index = some l := by
  induction l with
  | nil => rfl
  | cons x xs ih =>
      simp only [List.map_cons, List.mapM_cons, b64Index_b64Char x (h x (by simp)),
        ih (fun y hy => h y (by simp [hy])), Option.bind_eq_bind, Option.some_bind]
      rfl


theorem decode_toSextets : ∀ bs : List Nat, (∀ b ∈ bs, b < 256) →
    b64DecodeSextets (toSextets bs) = bs
  | [], _ => rfl
  | [b0], h => by
      have hb0 : b0 < 256 := h b0 (by simp)
      simp [toSextets, b64DecodeSextets]
      omega
  | [b0, b1], h => by
      have hb0 : b0 < 256 := h b0 (by simp)
      have hb1 : b1 < 256 := h b1 (by simp)
      simp [toSextets, b64DecodeSextets]
      omega
  | b0 :: b1 :: b2 :: rest, h => by
      have hb0 : b0 < 256 := h b0 (by simp)
      have hb1 : b1 < 256 := h b1 (by simp)
      have hb2 : b2 < 256 := h b2 (by simp)
      have ih := decode_toSextets rest (fun b hb => h b (by simp [hb]))
      simp [toSextets, b64DecodeSextets, ih]
      omega

theorem map_b64Char_ne_eq (l : List Nat) : ∀ c ∈ l.map b64Char, c ≠ eqChar := by
  intro c hc
  simp only [List.mem_map] at hc
  rcases hc with ⟨n, _, rfl⟩
  exact b64Char_ne_eq n

theorem dropTrailingEq_noeq (l : List Char) (h : ∀ c ∈ l, c ≠ eqChar) :
    dropTrailingEq l = l := by
  rcases hrev : l.reverse with _ | ⟨c1, t⟩
  · simp [dropTrailingEq, hrev]
  · rcases t with _ | ⟨c2, t2⟩
    · have hc1 : c1 ∈ l := by
        rw [← List.mem_reverse, hrev]
        simp
      simp [dropTrailingEq, hrev, h c1 hc1]
    · have hc1 : c1 ∈ l := by
        rw [← List.mem_reverse, hrev]
        simp
      simp [dropTrailingEq, hrev, h c1 hc1]

theorem dropTrailingEq_two (l : List Char) :
    dropTrailingEq (l ++ [eqChar, eqChar]) = l := by
  simp [dropTrailingEq, List.reverse_append]

theorem dropTrailingEq_one (l : List Char) (h : ∀ c ∈ l, c ≠ eqChar) :
    dropTrailingEq (l ++ [eqChar]) = l := by
  rcases hrev : l.reverse with _ | ⟨x, xs⟩
  · have hl : l = [] := by
      have := congrArg List.reverse hrev
      simpa using this
    subst hl
    simp [dropTrailingEq]
  · have hx : x ∈ l := by
      rw [← List.mem_reverse, hrev]
      simp
    have hlrev : (x :: xs).reverse = l := by
      rw [← hrev, List.reverse_reverse]
    simp [dropTrailingEq, List.reverse_append, hrev, h x hx, hlrev]

theorem btoaChars_len_mod (bs : List Nat) : (btoaChars bs).length % 4 = 0 := by
  have h := toSextets_len bs
  simp only [btoaChars, List.length_append, List.length_map]
  omega

theorem b64PadList_len_le (r : Nat) : (b64PadList r).length ≤ 2 := by
  rcases r with _ | _ | _ | k <;> simp [b64PadList]

theorem dropTrailingEq_btoaChars (bs : List Nat) :
    dropTrailingEq (btoaChars bs) = (toSextets bs).map b64Char := by
  have hne := map_b64Char_ne_eq (toSextets bs)
  have h3 : bs.length % 3 = 0 ∨ bs.length % 3 = 1 ∨ bs.length % 3 = 2 := by omega
  rcases h3 with h3 | h3 | h3
  · rw [btoaChars, h3, (by rfl : b64PadList 0 = []), List.append_nil]
    exact dropTrailingEq_noeq _ hne
  · rw [btoaChars, h3, (by rfl : b64PadList 1 = [eqChar, eqChar])]
    exact dropTrailingEq_two _
  · rw [btoaChars, h3, (by rfl : b64PadList 2 = [eqChar])]
    exact dropTrailingEq_one _ hne

theorem atob_btoaChars (bs : List Nat) (h : ∀ b ∈ bs, b < 256) :
    atob (String.mk (btoaChars bs)) = some (String.mk (bs.map Char.ofNat)) := by
  have hmod := btoaChars_len_mod bs
  have hlen := toSextets_len bs
  have hpad := b64PadList_len_le (bs.length % 3)
  have hmapM := mapM_b64 (toSextets bs) (toSextets_lt bs h)
  have hdec := decode_toSextets bs h
  have hne1 : ((toSextets bs).map b64Char).length % 4 ≠ 1 := by
    simp only [List.length_map]
    omega
  simp only [atob]
  rw [if_pos hmod, dropTrailingEq_btoaChars bs, if_neg hne1, hmapM]
  simp only [hdec]

theorem btoa_eq (s : String) (h : ∀ c ∈ s.data, c.toNat < 256) :
    btoa s = some (String.mk (btoaChars (s.data.map Char.toNat))) := by
  unfold btoa
  rw [if_pos]
  rw [List.all_eq_true]
  intro c hc
  exact decide_eq_true (h c hc)

theorem atob_btoa (s : String) (h : ∀ c ∈ s.data, c.toNat < 256) :
    atob (String.mk (btoaChars (s.data.map Char.toNat))) = some s := by
  have hb : ∀ b ∈ s.data.map Char.toNat, b < 256 := by
    intro b hb
    simp only [List.mem_map] at hb
    rcases hb with ⟨c, hc, rfl⟩
    exact h c hc
  rw [atob_btoaChars _ hb]
  congr 1
  rw [List.map_map]
  have hcomp : (Char.ofNat ∘ Char.toNat) = id := funext fun c => Char.ofNat_toNat c
  rw [hcomp, List.map_id, mk_data]

theorem parseScalarCs_str (cs : List Char) :
    parseScalarCs (dquoteC :: cs) =
      match parseStringRest cs with
      | none => none
      | some (out, r) => some (JScalar.str (String.mk out), r) := by
  rw [parseScalarCs.eq_def]
  simp

theorem parseMembers_comma (fuel : Nat) (key val rest : List Char) :
    parseMembers (fuel + 1)
        (dquoteC :: (escChars key ++ dquoteC :: ':' :: dquoteC ::
          (escChars val ++ dquoteC :: ',' :: rest)))
      = match parseMembers fuel rest with
        | none => none
        | some (ms, r) => some ((String.mk key, JScalar.str (String.mk val)) :: ms, r) := by
  rw [parseMembers.eq_def]
  simp [parseStringRest_esc, parseScalarCs_str]

theorem parseMembers_close (fuel : Nat) (key val rest : List Char) :
    parseMembers (fuel + 1)
        (dquoteC :: (escChars key ++ dquoteC :: ':' :: dquoteC ::
          (escChars val ++ dquoteC :: rbraceC :: rest)))
      = some ([(String.mk key, JScalar.str (String.mk val))], rest) := by
  rw [parseMembers.eq_def]
  simp [parseStringRest_esc, parseScalarCs_str, (by decide : ¬(rbraceC = ','))]

theorem parseJson_stringify (p : QRPayload) :
    parseJson (stringifyPayload p)
      = some (Json.obj [("hash", JScalar.str p.hash), ("product_no", JScalar.str p.product_no)]) := by
  have hh : (['h', 'a', 's', 'h'] : List Char) = escChars ['h', 'a', 's', 'h'] := by decide
  have hp : (['p', 'r', 'o', 'd', 'u', 'c', 't', '_', 'n', 'o'] : List Char)
      = escChars ['p', 'r', 'o', 'd', 'u', 'c', 't', '_', 'n', 'o'] := by decide
  unfold parseJson
  have hd : (stringifyPayload p).data
      = lbraceC :: dquoteC :: ("hash".data ++ dquoteC :: ':' :: dquoteC ::
          (escChars p.hash.data ++ dquoteC :: ',' :: dquoteC ::
            ("product_no".data ++ dquoteC :: ':' :: dquoteC ::
              (escChars p.product_no.data ++ [dquoteC, rbraceC])))) := rfl
  rw [hd, parseJsonList.eq_def]
  simp only [eq_self_iff_true, (by decide : ¬(dquoteC = rbraceC)), iff_false, if_true, if_false,
    List.length_cons, String.data]
  rw [hh, hp, parseMembers_comma, parseMembers_close]

theorem stringifyPayload_lt (p : QRPayload)
    (h1 : ∀ c ∈ p.hash.data, c.toNat < 256)
    (h2 : ∀ c ∈ p.product_no.data, c.toNat < 256) :
    ∀ c ∈ (stringifyPayload p).data, c.toNat < 256 := by
  have hd : (stringifyPayload p).data
      = lbraceC :: dquoteC :: ("hash".data ++ dquoteC :: ':' :: dquoteC ::
          (escChars p.hash.data ++ dquoteC :: ',' :: dquoteC ::
            ("product_no".data ++ dquoteC :: ':' :: dquoteC ::
              (escChars p.product_no.data ++ [dquoteC, rbraceC])))) := rfl
  rw [hd]
  simp only [List.forall_mem_cons, List.forall_mem_append]
  repeat' apply And.intro
  all_goals first
    | decide
    | exact escChars_lt _ h1
    | exact escChars_lt _ h2

/-- Counterexample to claim C3: valid base64 of the JSON text for the
empty object (missing both the fingerprint and the identifier field)
decodes to a non-null value — the source casts the parsed JSON without
any structural validation — where the claim requires the null result. -/
theorem C3_missing_fields_not_null :
    atob "e30=" = some (String.mk [lbraceC, rbraceC])
  ∧ decodeQRPayload "e30=" = some (Json.obj []) := by
  constructor <;> decide

/-- Claim C3 (amended): `decode` is total and never raises (the model
returns in every case), and it returns the absence value exactly when
the base64 step or the JSON parse fails — invalid encoding and
non-JSON content yield `none`, but well-formed JSON of the wrong
structure or with missing fields is returned as parsed, with no
structural validation. -/
theorem C3_decode_total_no_validation :
    (∀ s, decodeQRPayload s = none ↔
        (atob s = none ∨ ∃ d, atob s = some d ∧ parseJson d = none))
  ∧ decodeQRPayload "????" = none
  ∧ btoa "notjson" = some "bm90anNvbg=="
  ∧ decodeQRPayload "bm90anNvbg==" = none
  ∧ decodeQRPayload "e30=" = some (Json.obj []) := by
  refine ⟨?_, by decide, by decide, by decide, by decide⟩
  intro s
  unfold decodeQRPayload
  cases h : atob s <;> simp [h]

/-- Claim C4: round-trip law — for every payload whose fingerprint and
identifier consist of Latin-1 code points (the well-formedness the
base64 step requires; a real fingerprint is 64 hex characters),
`encode` succeeds and `decode` of the token yields exactly the
two-field object with the original fingerprint and identifier. -/
theorem C4_roundtrip (f idn : String)
    (hf : ∀ c ∈ f.data, c.toNat < 256) (hid : ∀ c ∈ idn.data, c.toNat < 256) :
    ∃ t, encodeQRPayload ⟨f, idn⟩ = some t
      ∧ decodeQRPayload t
          = some (Json.obj [("hash", JScalar.str f), ("product_no", JScalar.str idn)]) := by
  have hs : ∀ c ∈ (stringifyPayload ⟨f, idn⟩).data, c.toNat < 256 :=
    stringifyPayload_lt _ hf hid
  refine ⟨String.mk (btoaChars ((stringifyPayload ⟨f, idn⟩).data.map Char.toNat)), ?_, ?_⟩
  · exact btoa_eq _ hs
  · unfold decodeQRPayload
    rw [atob_btoa _ hs]
    exact parseJson_stringify ⟨f, idn⟩

/-- Witness for C4: the round trip at the concrete payload
(`"ab"`, `"P-100"`). -/
theorem C4_roundtrip_witness :
    ∃ t, encodeQRPayload ⟨"ab", "P-100"⟩ = some t
      ∧ decodeQRPayload t
          = some (Json.obj [("hash", JScalar.str "ab"), ("product_no", JScalar.str "P-100")]) :=
  C4_roundtrip "ab" "P-100" (by decide) (by decide)
